import Mathlib

/-!
Verification of the Lightningbeam scene/timeline model.

This file gives a shallow embedding of the parts of `lightningbeam.py`,
`svlgui.py` and `misc_funcs.py` that the verified properties speak about:
the undo/redo memento stacks, the z-order operations, the scene-graph
construction (Group/Layer/frame/framewrapper), the `.sc` export strings,
the save/open tar+pickle round trip, `Shape.hitTest` and
`simplify_shape`.  Python machine floats are only carried around (never
computed with) by the operations modelled here, so numeric attributes are
embedded as `Int`; Python lists become `List`; in-place mutation becomes
explicit state passing.  Paths of the source that raise a Python
exception (IndexError/ValueError/AttributeError) are modelled as
returning the state unchanged; every theorem that depends on such a path
carries hypotheses ruling the exception out.
-/

namespace LB

/-! ## Z-order operations (lightningbeam.py, send_to_back .. bring_to_front)

The four menu handlers operate in place on
`root.descendItem().activelayer.currentFrame()`, which is the Python
list of framewrapper objects of the active layer's current frame.  Each
is embedded as a function from that list (plus the currently selected
element `sel`, Python `currentselect`) to the new list.  `rac.index(sel)`
is `List.indexOf`; the theorems assume `sel ∈ rac`, which is exactly the
condition under which the Python `.index` call does not raise. -/

variable {α : Type}

/-- Embedding of `send_to_back`:  `a = rac[:index]`, `b = rac[index+1:]`,
`del rac[:index]`, `del rac[1:]`, then append the elements of `a` and `b`. -/
def send_to_back [DecidableEq α] (rac : List α) (sel : α) : List α :=
  let index := rac.indexOf sel
  if 0 < index then
    let a := rac.take index
    let b := rac.drop (index + 1)
    let rac1 := rac.drop index
    let rac2 := rac1.take 1
    rac2 ++ a ++ b
  else rac

/-- Embedding of `send_backward`: swap `rac[index-1]` and `rac[index]`
when `index > 0` (Python tuple assignment reads both old values first). -/
def send_backward [DecidableEq α] (rac : List α) (sel : α) : List α :=
  let index := rac.indexOf sel
  if 0 < index then
    match rac.get? (index - 1), rac.get? index with
    | some u, some v => (rac.set (index - 1) v).set index u
    | _, _ => rac
  else rac

/-- Embedding of `bring_forward`: swap `rac[index+1]` and `rac[index]`
when `index+1 < len(rac)`. -/
def bring_forward [DecidableEq α] (rac : List α) (sel : α) : List α :=
  let index := rac.indexOf sel
  if index + 1 < rac.length then
    match rac.get? index, rac.get? (index + 1) with
    | some u, some v => (rac.set (index + 1) u).set index v
    | _, _ => rac
  else rac

/-- Embedding of `bring_to_front`: remove `rac[index]` and append it. -/
def bring_to_front [DecidableEq α] (rac : List α) (sel : α) : List α :=
  let index := rac.indexOf sel
  if index < rac.length then
    match rac.get? index with
    | some a => rac.eraseIdx index ++ [a]
    | none => rac
  else rac

/-! ## Geometry simplification (misc_funcs.py, simplify_shape)

`shapedata` entries are `["M"|"L"|"C", x, y, ...]` lists; only the
command and the first two coordinates matter here, embedded as a triple.
The point-deletion test of `simplify_shape` (`acosB>(165-500/(ab+bc))`
together with its two exception branches) is floating-point arithmetic;
the verified property (endpoint preservation / identity on unknown
modes) holds for EVERY value of that test, so the test - and the
`catmullRom2bezier` post-pass used by mode `"smooth"` - are taken as
parameters of the model, bundled in `SimplifyEnv`.  The control flow
around them is translated from the source verbatim. -/

/-- A `shapedata` entry: command string and the two leading coordinates. -/
abbrev Seg : Type := String × Int × Int

/-- Parameters of the `simplify_shape` model: the floating-point
point-deletion test (given the three consecutive points `a b c`, decide
whether the middle one is deleted) and the `catmullRom2bezier` smoothing
function. -/
structure SimplifyEnv where
  angle_del : Seg → Seg → Seg → Bool
  catmull : List Seg → List Seg

/-- One body execution of the inner loop of `simplify_shape` at index
`j`: if `j > 0 and j < len(shape)-1` and the deletion test fires,
`del shape[j]`. -/
def spStep (env : SimplifyEnv) (j : Nat) (shape : List Seg) : List Seg :=
  if 0 < j ∧ j + 1 < shape.length then
    if env.angle_del (shape.getD (j - 1) ("", 0, 0)) (shape.getD j ("", 0, 0))
        (shape.getD (j + 1) ("", 0, 0)) then
      shape.eraseIdx j
    else shape
  else shape

/-- The inner loop `for j in reversed(range(k))` of `simplify_shape`:
indices `k-1, k-2, ..., 0` in that order (`k` is fixed at loop entry
even though the list shrinks). -/
def spPass (env : SimplifyEnv) : Nat → List Seg → List Seg
  | 0, shape => shape
  | k + 1, shape => spPass env k (spStep env k shape)

/-- The outer loop `for i in xrange(iterations)`; each iteration re-reads
`len(shape)`. -/
def spIter (env : SimplifyEnv) : Nat → List Seg → List Seg
  | 0, shape => shape
  | k + 1, shape => spIter env k (spPass env shape.length shape)

/-- Embedding of `misc_funcs.simplify_shape(shape, mode, iterations)`.
For mode `"smooth"` the Python source evaluates
`catmullRom2bezier([shape[0]]*2+shape+[shape[-1]])`; on an empty list
that raises IndexError, modelled as returning the list unchanged. -/
def simplify_shape (env : SimplifyEnv) (shape : List Seg) (mode : String)
    (iterations : Nat) : List Seg :=
  if mode = "straight" ∨ mode = "smooth" then
    let s := spIter env iterations shape
    if mode = "smooth" then
      match s.head?, s.getLast? with
      | some a, some b => env.catmull ([a, a] ++ s ++ [b])
      | _, _ => s
    else s
  else shape

/-! ## Hit testing (svlgui.py, Shape.hitTest) -/

/-- Value of `sys.maxint` of the 64-bit CPython 2 interpreter the
application runs under. -/
def maxint : Int := 9223372036854775807

/-- A 2-D point, `[x, y]`. -/
abbrev Pt : Type := Int × Int

/-- Embedding of the nested helper `ccw(a,b,c)` of `Shape.hitTest`:
`(c[1]-a[1])*(b[0]-a[0]) > (b[1]-a[1])*(c[0]-a[0])`. -/
def ccw (a b c : Pt) : Bool :=
  decide ((c.2 - a.2) * (b.1 - a.1) > (b.2 - a.2) * (c.1 - a.1))

/-- Embedding of the nested helper `intersect(a,b,c,d)` of
`Shape.hitTest`: `ccw(a,c,d) != ccw(b,c,d) and ccw(a,b,c) != ccw(a,b,d)`.
This is the standard strict (proper) segment-intersection test: each
segment's endpoints lie strictly on opposite sides of the other
segment's supporting line. -/
def intersect (a b c d : Pt) : Bool :=
  (ccw a c d != ccw b c d) && (ccw a b c != ccw a b d)

/-- The point stored in a `shapedata` entry (`self.shapedata[i][1:3]`). -/
def segPt (s : Seg) : Pt := (s.2.1, s.2.2)

/-- The ray-test of segment `i` of the closed polygon: Python
`intersect(self.shapedata[i-1][1:3], self.shapedata[i][1:3], [x,y],
[x,sys.maxint])`, where index `-1` wraps to the last entry. -/
def segHit (sd : List Seg) (x y : Int) (i : Nat) : Bool :=
  intersect (segPt (sd.getD ((i + sd.length - 1) % sd.length) ("", 0, 0)))
    (segPt (sd.getD i ("", 0, 0))) (x, y) (x, maxint)

/-- Embedding of `Shape.hitTest(x, y)`: fold
`hits = hits != intersect(...)` over `i in xrange(len(self.shapedata))`,
starting from `False`. -/
def hitTest (sd : List Seg) (x y : Int) : Bool :=
  (List.range sd.length).foldl (fun hits i => hits != segHit sd x y i) false

/-- Number of polygon segments that properly intersect the vertical ray
from `(x, y)` to `(x, sys.maxint)`. -/
def crossings (sd : List Seg) (x y : Int) : Nat :=
  (List.range sd.length).countP (fun i => segHit sd x y i)

/-- The `shapedata` assigned by `box(x, y, width, height)` in
lightningbeam.py:
`[["M",0,0],["L",width,0],["L",width,height],["L",0,height],["L",0,0]]`. -/
def boxShapedata (width height : Int) : List Seg :=
  [("M", 0, 0), ("L", width, 0), ("L", width, height), ("L", 0, height), ("L", 0, 0)]

/-! ## The .sc export (svlgui.py Group.print_sc / maxframe,
lightningbeam.py create_sc / run_file)

`frame.print_sc()` serialises one frame's put/move/play/action lines;
its output is not constrained by the verified properties, so a frame is
embedded as the string `frame.print_sc()` returns (`scFrame.sc`), and
the frame slots of a layer (which may be `None` after `add_frame`
padding) as `Option scFrame`.  Likewise a library symbol is embedded as
the string its `print_sc()` returns. -/

/-- A timeline frame, abstracted to the output of its `print_sc()`. -/
structure scFrame where
  sc : String
deriving DecidableEq

/-- A layer as seen by `Group.print_sc`: its list of frame slots. -/
structure scLayer where
  frames : List (Option scFrame)
deriving DecidableEq

/-- A group as seen by `Group.print_sc`: its name and its layers. -/
structure scGroup where
  name : String
  layers : List scLayer
deriving DecidableEq

/-- Embedding of `Group.maxframe`: the maximum layer frame count,
starting from 0. -/
def scGroup.maxframe (g : scGroup) : Nat :=
  g.layers.foldl (fun fr l => max fr l.frames.length) 0

/-- The string contributed to `Group.print_sc()` by frame slot `i` of
one layer: nothing for a `None` slot, else `".frame "+str(i+1)+"\n"`
followed by the frame's `print_sc()`. -/
def scFrameCell (i : Nat) (slot : Option scFrame) : String :=
  match slot with
  | some f => ".frame " ++ toString (i + 1) ++ "\n" ++ f.sc
  | none => ""

/-- Embedding of `Group.print_sc`.  A Python `j.frames[i]` with `i` out
of range raises IndexError; it is modelled as the empty contribution,
and the theorem about this function assumes all layers have
`maxframe` frames. -/
def scGroup.print_sc (g : scGroup) : String :=
  (if g.name = "_root" then "" else ".sprite " ++ g.name ++ "\n")
    ++ String.join ((List.range g.maxframe).map (fun i =>
        String.join (g.layers.map (fun j => scFrameCell i (j.frames.getD i none)))))
    ++ (if g.name = "_root" then "" else ".end\n")

/-- A library symbol (Group/Image/Sound), abstracted to the output of
its `print_sc()`. -/
structure scLibItem where
  sc : String
deriving DecidableEq

/-- Embedding of `create_sc(root)`; `WIDTH`, `HEIGHT` and `FRAMERATE`
are the svlgui module globals and `library` is `svlgui.Library`. -/
def create_sc (width height framerate : Int) (library : List scLibItem)
    (root : scGroup) : String :=
  ".flash bbox=" ++ toString width ++ "x" ++ toString height
    ++ " background=#ffffff fps=" ++ toString framerate ++ "\n"
    ++ String.join (library.map (fun i => i.sc))
    ++ root.print_sc ++ ".end"

/-- The statement of the claim about `create_sc`, assembled literally
from the specification's words, to be compared with the function
translated from the source. -/
def create_sc_spec (width height framerate : Int) (library : List scLibItem)
    (root : scGroup) : String :=
  ".flash bbox=" ++ toString width ++ "x" ++ toString height
    ++ " background=#ffffff fps=" ++ toString framerate ++ "\n"
    ++ String.join (library.map (fun i => i.sc))
    ++ root.print_sc
    ++ ".end"

/-- The observable file-system effect of `run_file`: which path is
written with which contents, and which external command is invoked. -/
structure runFileEffect where
  written_path : String
  written_content : String
  command : String
deriving DecidableEq

/-- Embedding of `run_file`: writes `create_sc(root)` to
`svlgui.FILE.name+".sc"` and runs
`"swfc"+svlgui.sep+"swfc_"+svlgui.PLATFORM+" "+FILE.name+".sc -o "+FILE.name+".swf"`. -/
def run_file (fileName platform sep : String) (width height framerate : Int)
    (library : List scLibItem) (root : scGroup) : runFileEffect :=
  { written_path := fileName ++ ".sc"
    written_content := create_sc width height framerate library root
    command := "swfc" ++ sep ++ "swfc_" ++ platform ++ " " ++ fileName
      ++ ".sc -o " ++ fileName ++ ".swf" }

/-! ## Undo/redo mementos (lightningbeam.py: class edit, undo, redo)

Scene objects are mutable Python objects referenced from the edit
records; they are embedded as an indexed store `Scene.objs` with edit
records holding indices.  The `from_attrs`/`to_attrs` dictionaries are
embedded as the record `attrs` carrying every key any record type reads
(`undo`/`redo` would raise KeyError on a missing key, so well-formed
records populate the keys of their type).  The Python stacks push and
pop at the END of the list (`append`/`pop`), and that orientation is
kept: the top of a stack is its last element. -/

/-- The attribute-valued fields of a scene object that the undo/redo
handlers read and write.  The numeric attributes are floats in Python;
they are only stored and copied here, never computed with. -/
structure SceneObj where
  x : Int
  y : Int
  xscale : Int
  yscale : Int
  filled : Bool
  fillcolor : Int
  text : String
  cursorpos : Int
deriving DecidableEq

/-- The union of the keys any `from_attrs`/`to_attrs` dictionary of an
edit record carries: `x`/`y` (move, scale), `xscale`/`yscale` (scale),
`filled`/`fillcolor` (fill), `text`/`cursorpos` (text), and
`layer`/`frame`/`obj` (add_object; `layer` and `obj` are references,
embedded as indices, `obj` being the framewrapper stored under the
`"obj"` key of `to_attrs`). -/
structure attrs where
  x : Int
  y : Int
  xscale : Int
  yscale : Int
  filled : Bool
  fillcolor : Int
  text : String
  cursorpos : Int
  layer : Nat
  frame : Nat
  obj : Nat
deriving DecidableEq

/-- Embedding of `class edit`: an undoable attribute-level change. -/
structure edit where
  type : String
  obj : Nat
  from_attrs : attrs
  to_attrs : attrs
deriving DecidableEq

/-- An element of `undo_stack`/`redo_stack`: either an `edit` instance or
some other value (the `isinstance` checks in `undo`/`redo` make the
distinction observable). -/
inductive HistEntry where
  | ed : edit → HistEntry
  | nonEdit : Nat → HistEntry
deriving DecidableEq

/-- A frame of a layer as the undo system sees it: the list of
framewrapper references (`objs`) and the per-frame selection
(`currentselect`, reached through the `Layer.currentselect` property). -/
structure uFrame where
  objs : List Nat
  currentselect : Option Nat
deriving DecidableEq

/-- A layer as the undo system sees it. -/
structure uLayer where
  frames : List uFrame
  currentframe : Nat
deriving DecidableEq

/-- The mutable state `undo`/`redo` acts on: the object store, the
layers, and the two history stacks. -/
structure Scene where
  objs : List SceneObj
  layers : List uLayer
  undo_stack : List HistEntry
  redo_stack : List HistEntry
deriving DecidableEq

/-- In-place mutation of the element at index `i` (no-op when the index
is out of range, which in Python would raise). -/
def updateAt {β : Type} (l : List β) (i : Nat) (f : β → β) : List β :=
  match l.get? i with
  | some a => l.set i (f a)
  | none => l

/-- The `Layer.currentselect` property getter:
`self.frames[self.currentframe].currentselect`. -/
def uLayer.currentselect (L : uLayer) : Option Nat :=
  match L.frames.get? L.currentframe with
  | some f => f.currentselect
  | none => none

/-- The `Layer.currentselect` property setter:
`self.frames[self.currentframe].currentselect = val`. -/
def uLayer.setcurrentselect (L : uLayer) (v : Option Nat) : uLayer :=
  { L with frames := updateAt L.frames L.currentframe (fun f => { f with currentselect := v }) }

/-- The per-type body of `undo` applied to a popped edit record `e`:
assigns the `from_attrs` values (respectively deletes the added object
for type `"add_object"`). -/
def applyUndo (e : edit) (s : Scene) : Scene :=
  if e.type = "move" then
    { s with objs := updateAt s.objs e.obj (fun o =>
        { o with x := e.from_attrs.x, y := e.from_attrs.y }) }
  else if e.type = "scale" then
    { s with objs := updateAt s.objs e.obj (fun o =>
        { o with x := e.from_attrs.x, y := e.from_attrs.y,
                 xscale := e.from_attrs.xscale, yscale := e.from_attrs.yscale }) }
  else if e.type = "fill" then
    { s with objs := updateAt s.objs e.obj (fun o =>
        { o with filled := e.from_attrs.filled, fillcolor := e.from_attrs.fillcolor }) }
  else if e.type = "add_object" then
    { s with layers := updateAt s.layers e.from_attrs.layer (fun L =>
        let L1 := if L.currentselect = some e.to_attrs.obj then L.setcurrentselect none else L
        { L1 with frames := updateAt L1.frames e.from_attrs.frame (fun f =>
            { f with objs := f.objs.erase e.to_attrs.obj }) }) }
  else if e.type = "text" then
    { s with objs := updateAt s.objs e.obj (fun o =>
        { o with text := e.from_attrs.text, cursorpos := e.from_attrs.cursorpos }) }
  else s

/-- The per-type body of `redo` applied to a popped edit record `e`:
assigns the `to_attrs` values (respectively re-appends the added object;
note the source reads the layer from `to_attrs` but the frame index from
`from_attrs` there). -/
def applyRedo (e : edit) (s : Scene) : Scene :=
  if e.type = "move" then
    { s with objs := updateAt s.objs e.obj (fun o =>
        { o with x := e.to_attrs.x, y := e.to_attrs.y }) }
  else if e.type = "scale" then
    { s with objs := updateAt s.objs e.obj (fun o =>
        { o with x := e.to_attrs.x, y := e.to_attrs.y,
                 xscale := e.to_attrs.xscale, yscale := e.to_attrs.yscale }) }
  else if e.type = "fill" then
    { s with objs := updateAt s.objs e.obj (fun o =>
        { o with filled := e.to_attrs.filled, fillcolor := e.to_attrs.fillcolor }) }
  else if e.type = "add_object" then
    { s with layers := updateAt s.layers e.to_attrs.layer (fun L =>
        { L with frames := updateAt L.frames e.from_attrs.frame (fun f =>
            { f with objs := f.objs ++ [e.to_attrs.obj] }) }) }
  else if e.type = "text" then
    { s with objs := updateAt s.objs e.obj (fun o =>
        { o with text := e.to_attrs.text, cursorpos := e.to_attrs.cursorpos }) }
  else s

/-- The effect, stated from the claim's words, of undoing an
`"add_object"` record on the recorded layer: clear the layer's current
selection if the added object is selected, then remove the object from
the recorded frame's object list (first occurrence, as Python
`list.index` + `del` do). -/
def undoAddObjectLayer (e : edit) (L : uLayer) : uLayer :=
  let L1 := if L.currentselect = some e.to_attrs.obj then L.setcurrentselect none else L
  { L1 with frames := updateAt L1.frames e.from_attrs.frame (fun f =>
      { f with objs := f.objs.erase e.to_attrs.obj }) }

/-- The effect, stated from the claim's words, of redoing an
`"add_object"` record: append the recorded object back to the recorded
frame's object list. -/
def redoAddObjectLayer (e : edit) (L : uLayer) : uLayer :=
  { L with frames := updateAt L.frames e.from_attrs.frame (fun f =>
      { f with objs := f.objs ++ [e.to_attrs.obj] }) }

/-- Embedding of `undo()`: if the undo stack is non-empty and its top is
an `edit`, pop it, apply its `from_attrs`, and push it on the redo
stack; otherwise only redraw (a no-op on the state). -/
def undo (s : Scene) : Scene :=
  match s.undo_stack.getLast? with
  | some (HistEntry.ed e) =>
      let s1 := applyUndo e { s with undo_stack := s.undo_stack.dropLast }
      { s1 with redo_stack := s1.redo_stack ++ [HistEntry.ed e] }
  | some (HistEntry.nonEdit _) => s
  | none => s

/-- Embedding of `redo()`: if the redo stack is non-empty and its top is
an `edit`, pop it, apply its `to_attrs`, and push it on the undo
stack; otherwise only redraw (a no-op on the state). -/
def redo (s : Scene) : Scene :=
  match s.redo_stack.getLast? with
  | some (HistEntry.ed e) =>
      let s1 := applyRedo e { s with redo_stack := s.redo_stack.dropLast }
      { s1 with undo_stack := s1.undo_stack ++ [HistEntry.ed e] }
  | some (HistEntry.nonEdit _) => s
  | none => s

/-- The hypothesis of the undo-then-redo claim: the record's `to_attrs`
agree, on the keys its type reads, with the current values of the
referenced object. -/
def attrsAgree (e : edit) (o : SceneObj) : Prop :=
  (e.type = "move" → e.to_attrs.x = o.x ∧ e.to_attrs.y = o.y) ∧
  (e.type = "scale" → e.to_attrs.x = o.x ∧ e.to_attrs.y = o.y ∧
    e.to_attrs.xscale = o.xscale ∧ e.to_attrs.yscale = o.yscale) ∧
  (e.type = "fill" → e.to_attrs.filled = o.filled ∧ e.to_attrs.fillcolor = o.fillcolor) ∧
  (e.type = "text" → e.to_attrs.text = o.text ∧ e.to_attrs.cursorpos = o.cursorpos)

instance (e : edit) (o : SceneObj) : Decidable (attrsAgree e o) := by
  unfold attrsAgree; infer_instance

/-! ## Scene-graph construction
(svlgui.py: framewrapper, frame, Layer, Group)

For the shape invariant the interesting point is that a frame's `objs`
list only ever receives `framewrapper` values; to make that a statement
rather than a typing triviality, a frame element is a sum of a wrapper
and a bare object reference, and the reachable states are generated by
the constructors and mutators translated below. -/

/-- Embedding of `class framewrapper`: the recorded placement fields and
the reference to the wrapped object. -/
structure framewrapper where
  obj : Nat
  x : Int
  y : Int
  rot : Int
  scalex : Int
  scaley : Int
deriving DecidableEq

/-- An element of a frame's `objs` list: a `framewrapper`, or a bare
scene-object reference (never produced by the translated code). -/
inductive FrameElem where
  | wrap : framewrapper → FrameElem
  | raw : Nat → FrameElem
deriving DecidableEq

/-- Recogniser for wrapped elements. -/
def FrameElem.isWrap : FrameElem → Bool
  | FrameElem.wrap _ => true
  | FrameElem.raw _ => false

/-- Embedding of `class frame` as the scene graph sees it: its object
list (`frame.__init__` starts it empty). -/
structure gFrame where
  objs : List FrameElem
deriving DecidableEq

/-- Embedding of `frame.add(obj, x, y, rot=0, scalex=1, scaley=1)`:
append a `framewrapper` around `obj`. -/
def gFrame.add (f : gFrame) (oid : Nat) (x y rot scalex scaley : Int) : gFrame :=
  { objs := f.objs ++ [FrameElem.wrap
      { obj := oid, x := x, y := y, rot := rot, scalex := scalex, scaley := scaley }] }

/-- The fields of a scene object that `Layer.add` reads. -/
structure AddedObj where
  oid : Nat
  x : Int
  y : Int
  rotation : Int
deriving DecidableEq

/-- Embedding of `class Layer` for the scene-graph claims: position,
frame slots (slots become `None` when `add_frame` pads), frame cursors,
the layer-level `objs` list, and the `level` flag. -/
structure gLayer where
  x : Int
  y : Int
  frames : List (Option gFrame)
  currentframe : Nat
  activeframe : Nat
  objs : List Nat
  level : Bool
deriving DecidableEq

/-- Embedding of `Layer.__init__(*args)`: one fresh frame, cursors at 0,
`args` appended to the layer-level `objs` list. -/
def gLayer.init (args : List Nat) : gLayer :=
  { x := 0, y := 0, frames := [some { objs := [] }], currentframe := 0,
    activeframe := 0, objs := args, level := false }

/-- In-place mutation of frame slot `i` (no-op when the slot is missing
or `None`, where Python would raise). -/
def setFrameAt (frames : List (Option gFrame)) (i : Nat) (f : gFrame → gFrame) :
    List (Option gFrame) :=
  match frames.get? i with
  | some (some fr) => frames.set i (some (f fr))
  | _ => frames

/-- Embedding of `Layer.add` for one object: shift by the layer
position, `self.frames[self.currentframe].add(obj, obj.x, obj.y,
obj.rotation, 1, 1)`, and append to the layer-level `objs` list. -/
def gLayer.add (L : gLayer) (o : AddedObj) : gLayer :=
  match L.frames.get? L.currentframe with
  | some (some _) =>
      { L with
        frames := setFrameAt L.frames L.currentframe (fun f =>
          f.add o.oid (o.x - L.x) (o.y - L.y) o.rotation 1 1)
        objs := L.objs ++ [o.oid] }
  | _ => L

/-- Python `list.insert(i, a)`: insert before index `i`, clamping to the
end when `i` exceeds the length. -/
def insertClamped {β : Type} : List β → Nat → β → List β
  | l, 0, a => a :: l
  | [], _ + 1, a => [a]
  | b :: l, n + 1, a => b :: insertClamped l n a

/-- The backward search of `Layer.add_frame`
(`for i in xrange(activeframe-1,-1,-1): if self.frames[i]: ...`):
the largest index `< k` holding a non-`None` frame. -/
def findPrevSome (frames : List (Option gFrame)) : Nat → Option Nat
  | 0 => none
  | k + 1 =>
      match frames.get? k with
      | some (some _) => some k
      | _ => findPrevSome frames k

/-- The copy loop at the end of `Layer.add_frame`: re-add each wrapped
object of the source frame to the destination frame (via `frame.add`,
with default scale 1).  A bare element would raise AttributeError at
`i.obj` in Python and contributes nothing here. -/
def copyFrameObjs (src : gFrame) (dst : gFrame) : gFrame :=
  { objs := dst.objs ++ src.objs.filterMap (fun el =>
      match el with
      | FrameElem.wrap w => some (FrameElem.wrap
          { obj := w.obj, x := w.x, y := w.y, rot := w.rot, scalex := 1, scaley := 1 })
      | FrameElem.raw _ => none) }

/-- The padding prologue of `Layer.add_frame`: when
`activeframe > len(frames)`, append `(activeframe+1)-len(frames)`
`None` slots. -/
def padFrames (L : gLayer) : gLayer :=
  if L.frames.length < L.activeframe then
    { L with frames := L.frames ++
        List.replicate (L.activeframe + 1 - L.frames.length) (none : Option gFrame) }
  else L

/-- The copy loop of `Layer.add_frame`: re-add each wrapper of frame
`lastframe` into frame `af` (no-op when `lastframe` holds no frame). -/
def copyInto (frames : List (Option gFrame)) (lastframe af : Nat) :
    List (Option gFrame) :=
  match frames.get? lastframe with
  | some (some src) => setFrameAt frames af (fun dst => copyFrameObjs src dst)
  | _ => frames

/-- Embedding of `Layer.add_frame(populate)` (the `populate` flag is
unused by the source body): pad with `None` up to the active frame when
needed, materialise or insert a fresh frame there, copy the wrappers of
the last populated frame into it, and move `currentframe` to it. -/
def gLayer.add_frame (L : gLayer) : gLayer :=
  let L1 := padFrames L
  match L1.frames.get? L1.activeframe with
  | none => L1
  | some none =>
      let frames2 := L1.frames.set L1.activeframe (some { objs := [] })
      let lastframe := (findPrevSome frames2 L1.activeframe).getD L1.activeframe
      { L1 with frames := copyInto frames2 lastframe L1.activeframe,
                currentframe := L1.activeframe }
  | some (some _) =>
      let af2 := L1.activeframe + 1
      let frames2 := insertClamped L1.frames af2 (some { objs := [] })
      { L1 with frames := copyInto frames2 L1.activeframe af2,
                activeframe := af2, currentframe := af2 }

/-- Embedding of `class Group` for the scene-graph claims: its layer
list and active-layer index `_al`. -/
structure gGroup where
  layers : List gLayer
  al : Nat
deriving DecidableEq

/-- Embedding of `Group.__init__(*args)`: a single layer built by
`Layer(*args)`, active layer 0. -/
def gGroup.init (args : List Nat) : gGroup :=
  { layers := [gLayer.init args], al := 0 }

/-- Embedding of `Group.add` (delegates to the active layer's `add`). -/
def gGroup.add (g : gGroup) (o : AddedObj) : gGroup :=
  { g with layers := updateAt g.layers g.al (fun L => L.add o) }

/-- Embedding of `Group.add_frame` (delegates to the active layer). -/
def gGroup.add_frame (g : gGroup) : gGroup :=
  { g with layers := updateAt g.layers g.al (fun L => L.add_frame) }

/-- Embedding of `Group.add_layer(index)`: insert a fresh `Layer()`
after `index`, make it active, and set its `level` flag. -/
def gGroup.add_layer (g : gGroup) (index : Nat) : gGroup :=
  let g1 := { g with layers := insertClamped g.layers (index + 1) (gLayer.init []),
                     al := index + 1 }
  { g1 with layers := updateAt g1.layers g1.al (fun L => { L with level := true }) }

/-- The scene-graph states reachable from a fresh `Group(*args)` by the
translated mutators. -/
inductive Reach : gGroup → Prop where
  | init : ∀ args, Reach (gGroup.init args)
  | add : ∀ g o, Reach g → Reach (gGroup.add g o)
  | add_frame : ∀ g, Reach g → Reach (gGroup.add_frame g)
  | add_layer : ∀ g i, Reach g → Reach (gGroup.add_layer g i)

/-- Every populated slot of a frame-slot list holds only `framewrapper`
values in its `objs` list. -/
def framesWrapped (frames : List (Option gFrame)) : Prop :=
  ∀ slot ∈ frames, ∀ fr, slot = some fr → ∀ el ∈ fr.objs, el.isWrap = true

/-- The shape invariant: every populated frame slot of every layer holds
only `framewrapper` values in its `objs` list. -/
def allWrapped (g : gGroup) : Prop :=
  ∀ L ∈ g.layers, framesWrapped L.frames

/-! ## Save / open (lightningbeam.py: save_file, open_file)

`save_file` pickles `(root, svlgui.Library)` and stores the bytes as the
tar member `"basefile"`, then adds each library image's backing file
under its basename; `open_file` reads the `"basefile"` member back and
then rewrites every image entry's path to point into a fresh temporary
directory.  The pickle codec is the Python standard library, not
repository code; it is embedded as the tagged value `TarContent.blob`,
which makes `loads (dumps v) = v` hold by construction, exactly the
codec's contract.  The root document is opaque to both functions and is
embedded as an abstract tag. -/

/-- A library entry as `save_file`/`open_file` observe it: its `type`
tag, whether it has a `path` attribute, the `val` and `path` strings, the
optional `iname` attribute (`none` = attribute absent, `some none` =
`None`), and an opaque remainder (`payload`). -/
structure LibEntry where
  type : String
  hasPath : Bool
  val : String
  path : String
  iname : Option (Option String)
  payload : Nat
deriving DecidableEq

/-- The content of a tar member: the pickled `(root, Library)` blob, or
an image file copied from disk. -/
inductive TarContent where
  | blob : Nat → List LibEntry → TarContent
  | file : String → TarContent
deriving DecidableEq

/-- Python `s.split(os.sep)[-1]`. -/
def basename (s : String) : String :=
  match (s.splitOn "/").getLast? with
  | some b => b
  | none => s

/-- Embedding of `save_file`: the archive produced, as its list of
members in the order they are added.  The first member is always
`TarInfo('basefile')` holding `pickle.dumps((root, svlgui.Library))`;
after it, one member per `"Image"` library entry, named by the
basename of its `val` (or `path` when the entry has one). -/
def save_file (root : Nat) (library : List LibEntry) : List (String × TarContent) :=
  ("basefile", TarContent.blob root library) ::
    (library.filter (fun e => e.type = "Image")).map (fun e =>
      if e.hasPath then (basename e.path, TarContent.file (basename e.path))
      else (basename e.val, TarContent.file (basename e.val)))

/-- The per-entry image fix-up `open_file` performs after unpickling:
for an `"Image"` entry, point `val` (or `path`) into the fresh temporary
directory `SECURETEMPDIR`, and default a missing `iname` to `None`. -/
def openFixEntry (securetmp : String) (i : LibEntry) : LibEntry :=
  if i.type = "Image" then
    let i1 :=
      if i.hasPath then { i with path := securetmp ++ "/" ++ basename i.path }
      else { i with val := securetmp ++ "/" ++ basename i.val }
    { i1 with iname := match i1.iname with | none => some none | x => x }
  else i

/-- Embedding of `open_file` on an already-opened archive: extract the
`"basefile"` member, unpickle `(root, Library)` from it, and apply the
image fix-up to every library entry; `none` when the archive has no
well-formed `"basefile"` member (Python would raise KeyError). -/
def open_file (archive : List (String × TarContent)) (securetmp : String) :
    Option (Nat × List LibEntry) :=
  match archive.find? (fun m => m.1 = "basefile") with
  | some (_, TarContent.blob root lib) =>
      some (root, lib.map (openFixEntry securetmp))
  | _ => none

/-! ## Helper lemmas -/

theorem updateAt_of_get? {β : Type} {l : List β} {i : Nat} {a : β} (f : β → β)
    (h : l.get? i = some a) : updateAt l i f = l.set i (f a) := by
  unfold updateAt; rw [h]

theorem updateAt_of_none {β : Type} {l : List β} {i : Nat} (f : β → β)
    (h : l.get? i = none) : updateAt l i f = l := by
  unfold updateAt; rw [h]

theorem set_get_self {β : Type} : ∀ (l : List β) (i : Nat) (a : β),
    l.get? i = some a → l.set i a = l
  | [], _, _, h => by simp at h
  | b :: t, 0, a, h => by simp at h; simp [h]
  | b :: t, i + 1, a, h => by
      simp only [List.get?_cons_succ] at h
      simp [set_get_self t i a h]

theorem get?_set_self {β : Type} : ∀ (l : List β) (i : Nat) (a b : β),
    l.get? i = some a → (l.set i b).get? i = some b
  | [], _, _, _, h => by simp at h
  | c :: t, 0, a, b, _ => rfl
  | c :: t, i + 1, a, b, h => by
      simp only [List.get?_cons_succ] at h
      simpa using get?_set_self t i a b h

theorem updateAt_updateAt {β : Type} (l : List β) (i : Nat) (f g : β → β) :
    updateAt (updateAt l i f) i g = updateAt l i (fun a => g (f a)) := by
  cases h : l.get? i with
  | none => rw [updateAt_of_none f h, updateAt_of_none g h, updateAt_of_none _ h]
  | some a =>
      rw [updateAt_of_get? f h, updateAt_of_get? _ h,
        updateAt_of_get? g (get?_set_self l i a (f a) h), List.set_set]

theorem updateAt_id_of {β : Type} {l : List β} {i : Nat} {a : β} (f : β → β)
    (h : l.get? i = some a) (hfa : f a = a) : updateAt l i f = l := by
  rw [updateAt_of_get? f h, hfa, set_get_self l i a h]

theorem indexOf_decomp {β : Type} [DecidableEq β] {l : List β} {a : β} (h : a ∈ l) :
    l = l.take (l.indexOf a) ++ a :: l.drop (l.indexOf a + 1) := by
  have hlt : l.indexOf a < l.length := List.indexOf_lt_length.2 h
  conv_lhs => rw [← List.take_append_drop (l.indexOf a) l]
  rw [List.drop_eq_getElem_cons hlt, List.getElem_indexOf hlt]

theorem set_pair_adj {β : Type} :
    ∀ (t r : List β) (a b c d : β),
      ((t ++ a :: b :: r).set t.length c).set (t.length + 1) d = t ++ c :: d :: r
  | [], _, _, _, _, _ => rfl
  | e :: t, r, a, b, c, d => by
      simp only [List.cons_append, List.length_cons, List.set_cons_succ]
      rw [set_pair_adj t r a b c d]

theorem set_pair_adj2 {β : Type} :
    ∀ (t r : List β) (a b c d : β),
      ((t ++ a :: b :: r).set (t.length + 1) d).set t.length c = t ++ c :: d :: r
  | [], _, _, _, _, _ => rfl
  | e :: t, r, a, b, c, d => by
      simp only [List.cons_append, List.length_cons, List.set_cons_succ]
      rw [set_pair_adj2 t r a b c d]

theorem set_swap_adj_of_split {β : Type} {l t r : List β} {a b : β} {i : Nat}
    (hsplit : l = t ++ a :: b :: r) (hlen : t.length = i) (c d : β) :
    (l.set i c).set (i + 1) d = t ++ c :: d :: r := by
  subst hsplit; subst hlen; exact set_pair_adj t r a b c d

theorem set_swap_adj2_of_split {β : Type} {l t r : List β} {a b : β} {i : Nat}
    (hsplit : l = t ++ a :: b :: r) (hlen : t.length = i) (c d : β) :
    (l.set (i + 1) d).set i c = t ++ c :: d :: r := by
  subst hsplit; subst hlen; exact set_pair_adj2 t r a b c d

/-! ## C6: create_sc and run_file -/

/-- C6: the .sc export script is the fixed concatenation of the
`.flash` header line, `print_sc()` of each library symbol in list order,
`root.print_sc()` and `".end"`; and `run_file` writes exactly that
string to `FILE.name+".sc"` and invokes the external swfc compiler with
that .sc file as input and `FILE.name+".swf"` as output. -/
theorem create_sc_concatenation (width height framerate : Int)
    (library : List scLibItem) (root : scGroup) (fileName platform sep : String) :
    create_sc width height framerate library root
      = create_sc_spec width height framerate library root
    ∧ (run_file fileName platform sep width height framerate library root).written_path
      = fileName ++ ".sc"
    ∧ (run_file fileName platform sep width height framerate library root).written_content
      = create_sc width height framerate library root
    ∧ (run_file fileName platform sep width height framerate library root).command
      = "swfc" ++ sep ++ "swfc_" ++ platform ++ " " ++ (fileName ++ ".sc")
        ++ " -o " ++ (fileName ++ ".swf") := by
  refine ⟨rfl, rfl, rfl, ?_⟩
  show "swfc" ++ sep ++ "swfc_" ++ platform ++ " " ++ fileName ++ ".sc -o " ++ fileName
      ++ ".swf" = _
  simp only [String.append_assoc]
  congr 1

/-! ## C7: Group.print_sc sprite framing and frame order -/

/-- C7: for a non-root group all of whose layers have `maxframe` frame
slots, `print_sc` is `".sprite "+name+"\n"`, then for frame indices
`i = 0 .. maxframe-1` in increasing order and layers in list order the
`".frame "+str(i+1)+"\n"` line followed by the frame's `print_sc()` for
every non-`None` slot, then `".end\n"`. -/
theorem print_sc_sprite_frames (g : scGroup) (hname : g.name ≠ "_root")
    (_hlen : ∀ l ∈ g.layers, l.frames.length = g.maxframe) :
    g.print_sc = ".sprite " ++ g.name ++ "\n"
      ++ String.join ((List.range g.maxframe).map (fun i =>
          String.join (g.layers.map (fun j => scFrameCell i (j.frames.getD i none)))))
      ++ ".end\n" := by
  unfold scGroup.print_sc
  rw [if_neg hname, if_neg hname]

/-- Witness for C7 at a concrete two-layer, two-frame sprite. -/
theorem print_sc_sprite_frames_witness :
    scGroup.print_sc ⟨"s1", [⟨[some ⟨"A"⟩, none]⟩, ⟨[none, some ⟨"B"⟩]⟩]⟩
      = ".sprite " ++ "s1" ++ "\n"
        ++ String.join ((List.range
            (scGroup.maxframe ⟨"s1", [⟨[some ⟨"A"⟩, none]⟩, ⟨[none, some ⟨"B"⟩]⟩]⟩)).map
            (fun i => String.join
              (([⟨[some ⟨"A"⟩, none]⟩, ⟨[none, some ⟨"B"⟩]⟩] : List scLayer).map
                (fun j => scFrameCell i (j.frames.getD i none)))))
        ++ ".end\n" :=
  print_sc_sprite_frames ⟨"s1", [⟨[some ⟨"A"⟩, none]⟩, ⟨[none, some ⟨"B"⟩]⟩]⟩
    (by decide) (by decide)

/-! ## C10: z-order operations -/

/-- C10: when the selected object occurs in the current frame's object
list, each z-order operation returns a permutation of that list:
`send_to_back` moves the selection to index 0 keeping the others in
order, `bring_to_front` moves it to the last index, and
`send_backward`/`bring_forward` swap it with its neighbour. -/
theorem z_order_perm {β : Type} [DecidableEq β] (l : List β) (sel : β) (h : sel ∈ l) :
    send_to_back l sel
      = sel :: (l.take (l.indexOf sel) ++ l.drop (l.indexOf sel + 1))
    ∧ (send_to_back l sel).Perm l
    ∧ (send_backward l sel).Perm l
    ∧ (bring_forward l sel).Perm l
    ∧ bring_to_front l sel
      = (l.take (l.indexOf sel) ++ l.drop (l.indexOf sel + 1)) ++ [sel]
    ∧ (bring_to_front l sel).Perm l
    ∧ (0 < l.indexOf sel → ∃ u, l.get? (l.indexOf sel - 1) = some u ∧
        send_backward l sel = l.take (l.indexOf sel - 1)
          ++ sel :: u :: l.drop (l.indexOf sel + 1))
    ∧ (l.indexOf sel + 1 < l.length → ∃ v, l.get? (l.indexOf sel + 1) = some v ∧
        bring_forward l sel = l.take (l.indexOf sel)
          ++ v :: sel :: l.drop (l.indexOf sel + 2)) := by
  have hlt : l.indexOf sel < l.length := List.indexOf_lt_length.2 h
  have hget : l.get? (l.indexOf sel) = some sel := List.indexOf_get? h
  have hdec : l = l.take (l.indexOf sel) ++ sel :: l.drop (l.indexOf sel + 1) :=
    indexOf_decomp h
  have hperm : l.Perm (sel :: (l.take (l.indexOf sel) ++ l.drop (l.indexOf sel + 1))) := by
    conv_lhs => rw [hdec]
    exact List.perm_middle
  have htklen : (l.take (l.indexOf sel)).length = l.indexOf sel := by
    rw [List.length_take]; omega
  -- send_to_back
  have hstb : send_to_back l sel
      = sel :: (l.take (l.indexOf sel) ++ l.drop (l.indexOf sel + 1)) := by
    unfold send_to_back
    by_cases hpos : 0 < l.indexOf sel
    · rw [if_pos hpos]
      have hdrop : l.drop (l.indexOf sel) = sel :: l.drop (l.indexOf sel + 1) := by
        rw [List.drop_eq_getElem_cons hlt, List.getElem_indexOf hlt]
      rw [hdrop]
      rfl
    · rw [if_neg hpos]
      have h0 : l.indexOf sel = 0 := Nat.eq_zero_of_not_pos hpos
      rw [h0]
      rw [h0] at hdec
      simpa using hdec
  -- bring_to_front
  have hbtf : bring_to_front l sel
      = (l.take (l.indexOf sel) ++ l.drop (l.indexOf sel + 1)) ++ [sel] := by
    unfold bring_to_front
    rw [if_pos hlt, hget, List.eraseIdx_eq_take_drop_succ]
  -- send_backward, positive case: split l around positions index-1 and index
  have hsbsplit : 0 < l.indexOf sel → ∃ u, l.get? (l.indexOf sel - 1) = some u ∧
      l = l.take (l.indexOf sel - 1) ++ u :: sel :: l.drop (l.indexOf sel + 1) := by
    intro hpos
    have hm1 : l.indexOf sel - 1 < l.length := Nat.lt_of_le_of_lt (Nat.sub_le _ _) hlt
    refine ⟨l.get ⟨l.indexOf sel - 1, hm1⟩, List.get?_eq_get hm1, ?_⟩
    have htk : l.take (l.indexOf sel) = l.take (l.indexOf sel - 1)
        ++ [l.get ⟨l.indexOf sel - 1, hm1⟩] := by
      conv_lhs => rw [show l.indexOf sel = (l.indexOf sel - 1) + 1 by omega]
      rw [List.take_succ]
      have : l[l.indexOf sel - 1]? = some (l.get ⟨l.indexOf sel - 1, hm1⟩) := by
        rw [← List.get?_eq_getElem?]; exact List.get?_eq_get hm1
      rw [this]
      rfl
    conv_lhs => rw [hdec]
    rw [htk, List.append_assoc]
    rfl
  have hsb : 0 < l.indexOf sel → ∃ u, l.get? (l.indexOf sel - 1) = some u ∧
      send_backward l sel = l.take (l.indexOf sel - 1)
        ++ sel :: u :: l.drop (l.indexOf sel + 1) := by
    intro hpos
    obtain ⟨u, hu, hsplit⟩ := hsbsplit hpos
    refine ⟨u, hu, ?_⟩
    unfold send_backward
    rw [if_pos hpos, hu, hget]
    have hm1 : l.indexOf sel - 1 < l.length := Nat.lt_of_le_of_lt (Nat.sub_le _ _) hlt
    have hlen1 : (l.take (l.indexOf sel - 1)).length = l.indexOf sel - 1 := by
      rw [List.length_take]; omega
    have hkey := set_swap_adj_of_split hsplit hlen1 sel u
    have hii : l.indexOf sel - 1 + 1 = l.indexOf sel := by omega
    rw [hii] at hkey
    exact hkey
  -- bring_forward, in-range case: split l around positions index and index+1
  have hbfsplit : l.indexOf sel + 1 < l.length → ∃ v, l.get? (l.indexOf sel + 1) = some v ∧
      l = l.take (l.indexOf sel) ++ sel :: v :: l.drop (l.indexOf sel + 2) := by
    intro hrng
    refine ⟨l.get ⟨l.indexOf sel + 1, hrng⟩, List.get?_eq_get hrng, ?_⟩
    conv_lhs => rw [hdec]
    have : l.drop (l.indexOf sel + 1) = l.get ⟨l.indexOf sel + 1, hrng⟩
        :: l.drop (l.indexOf sel + 2) := by
      rw [List.drop_eq_getElem_cons hrng]
      rfl
    rw [this]
  have hbf : l.indexOf sel + 1 < l.length → ∃ v, l.get? (l.indexOf sel + 1) = some v ∧
      bring_forward l sel = l.take (l.indexOf sel)
        ++ v :: sel :: l.drop (l.indexOf sel + 2) := by
    intro hrng
    obtain ⟨v, hv, hsplit⟩ := hbfsplit hrng
    refine ⟨v, hv, ?_⟩
    unfold bring_forward
    rw [if_pos hrng, hget, hv]
    exact set_swap_adj2_of_split hsplit htklen v sel
  refine ⟨hstb, ?_, ?_, ?_, hbtf, ?_, hsb, hbf⟩
  · rw [hstb]; exact hperm.symm
  · by_cases hpos : 0 < l.indexOf sel
    · obtain ⟨u, hu, heq⟩ := hsb hpos
      obtain ⟨u2, hu2, hsplit⟩ := hsbsplit hpos
      have huu : u2 = u := by rw [hu] at hu2; exact (Option.some_inj.1 hu2).symm
      subst huu
      rw [heq]
      conv_rhs => rw [hsplit]
      exact List.Perm.append_left _ (List.Perm.swap u2 sel _)
    · unfold send_backward
      rw [if_neg hpos]
  · by_cases hrng : l.indexOf sel + 1 < l.length
    · obtain ⟨v, hv, heq⟩ := hbf hrng
      obtain ⟨v2, hv2, hsplit⟩ := hbfsplit hrng
      have hvv : v2 = v := by rw [hv] at hv2; exact (Option.some_inj.1 hv2).symm
      subst hvv
      rw [heq]
      conv_rhs => rw [hsplit]
      exact List.Perm.append_left _ (List.Perm.swap sel v2 _)
    · unfold bring_forward
      rw [if_neg hrng]
  · rw [hbtf]
    exact (List.perm_append_singleton sel _).trans hperm.symm

/-- Witness for C10 at a concrete four-element list. -/
theorem z_order_perm_witness :
    send_to_back [10, 20, 30, 40] 30 = 30 :: ([10, 20] ++ [40])
    ∧ (bring_to_front [10, 20, 30, 40] 30).Perm [10, 20, 30, 40] := by
  have h := z_order_perm [10, 20, 30, 40] 30 (by decide)
  exact ⟨h.1, h.2.2.2.2.2.1⟩

/-! ## C8: simplify_shape control flow -/

theorem spStep_sublist (env : SimplifyEnv) (j : Nat) (s : List Seg) :
    (spStep env j s).Sublist s := by
  unfold spStep
  split_ifs with h1 h2
  · exact List.eraseIdx_sublist s j
  · exact List.Sublist.refl s
  · exact List.Sublist.refl s

theorem eraseIdx_head? {β : Type} (s : List β) (j : Nat) (hj : 0 < j) :
    (s.eraseIdx j).head? = s.head? := by
  cases s with
  | nil => simp [List.eraseIdx]
  | cons a t =>
      cases j with
      | zero => omega
      | succ k => simp [List.eraseIdx]

theorem eraseIdx_getLast? {β : Type} :
    ∀ (s : List β) (j : Nat), j + 1 < s.length → (s.eraseIdx j).getLast? = s.getLast? := by
  intro s
  induction s with
  | nil => intro j hj; simp at hj
  | cons a t ih =>
      intro j hj
      cases j with
      | zero =>
          cases t with
          | nil => simp at hj
          | cons b u => simp [List.eraseIdx, List.getLast?_cons_cons]
      | succ k =>
          have hk : k + 1 < t.length := by
            simp only [List.length_cons] at hj; omega
          have hke : (t.eraseIdx k).getLast? = t.getLast? := ih k hk
          have ht : t ≠ [] := by
            cases t
            · simp at hk
            · simp
          have hne : t.eraseIdx k ≠ [] := by
            have : (t.eraseIdx k).length = t.length - 1 := by
              rw [List.length_eraseIdx]
              simp only [if_pos (by omega : k < t.length)]
            intro hcon
            rw [hcon] at this
            simp at this
            omega
          obtain ⟨c, u, hcu⟩ := List.exists_cons_of_ne_nil hne
          obtain ⟨d, w, hdw⟩ := List.exists_cons_of_ne_nil ht
          show ((a :: t.eraseIdx k)).getLast? = (a :: t).getLast?
          rw [hcu, hdw, List.getLast?_cons_cons, List.getLast?_cons_cons, ← hcu, ← hdw]
          exact hke

theorem spStep_head? (env : SimplifyEnv) (j : Nat) (s : List Seg) :
    (spStep env j s).head? = s.head? := by
  unfold spStep
  split_ifs with h1 h2
  · exact eraseIdx_head? s j h1.1
  · rfl
  · rfl

theorem spStep_getLast? (env : SimplifyEnv) (j : Nat) (s : List Seg) :
    (spStep env j s).getLast? = s.getLast? := by
  unfold spStep
  split_ifs with h1 h2
  · exact eraseIdx_getLast? s j h1.2
  · rfl
  · rfl

theorem spPass_props (env : SimplifyEnv) :
    ∀ (k : Nat) (s : List Seg), (spPass env k s).Sublist s
      ∧ (spPass env k s).head? = s.head? ∧ (spPass env k s).getLast? = s.getLast? := by
  intro k
  induction k with
  | zero => intro s; exact ⟨List.Sublist.refl s, rfl, rfl⟩
  | succ k ih =>
      intro s
      obtain ⟨h1, h2, h3⟩ := ih (spStep env k s)
      exact ⟨h1.trans (spStep_sublist env k s),
        h2.trans (spStep_head? env k s), h3.trans (spStep_getLast? env k s)⟩

theorem spIter_props (env : SimplifyEnv) :
    ∀ (k : Nat) (s : List Seg), (spIter env k s).Sublist s
      ∧ (spIter env k s).head? = s.head? ∧ (spIter env k s).getLast? = s.getLast? := by
  intro k
  induction k with
  | zero => intro s; exact ⟨List.Sublist.refl s, rfl, rfl⟩
  | succ k ih =>
      intro s
      obtain ⟨h1, h2, h3⟩ := ih (spPass env s.length s)
      obtain ⟨g1, g2, g3⟩ := spPass_props env s.length s
      exact ⟨h1.trans g1, h2.trans g2, h3.trans g3⟩

/-- C8: `simplify_shape` returns the list unchanged for modes other than
`"straight"` and `"smooth"`, and for mode `"straight"` it returns a
subsequence of the input (only interior points are deleted) retaining
the first and last entries; this holds for every value of the
floating-point deletion test. -/
theorem simplify_shape_endpoints (env : SimplifyEnv) (shape : List Seg)
    (mode : String) (n : Nat) :
    (mode ≠ "straight" ∧ mode ≠ "smooth" → simplify_shape env shape mode n = shape)
    ∧ (mode = "straight" →
        (simplify_shape env shape mode n).Sublist shape
        ∧ (simplify_shape env shape mode n).head? = shape.head?
        ∧ (simplify_shape env shape mode n).getLast? = shape.getLast?) := by
  constructor
  · intro hmode
    unfold simplify_shape
    rw [if_neg]
    rintro (h | h)
    · exact hmode.1 h
    · exact hmode.2 h
  · intro hmode
    subst hmode
    unfold simplify_shape
    rw [if_pos (Or.inl rfl), if_neg (by decide)]
    exact spIter_props env n shape

/-- Witness for C8 at a concrete three-point polyline with an
always-delete test: the middle point is deleted, the endpoints stay. -/
theorem simplify_shape_endpoints_witness :
    (simplify_shape ⟨fun _ _ _ => true, fun l => l⟩
        [("M", 0, 0), ("L", 1, 1), ("L", 2, 2)] "straight" 1).Sublist
      [("M", 0, 0), ("L", 1, 1), ("L", 2, 2)]
    ∧ simplify_shape ⟨fun _ _ _ => true, fun l => l⟩
        [("M", 0, 0), ("L", 1, 1), ("L", 2, 2)] "other" 1
      = [("M", 0, 0), ("L", 1, 1), ("L", 2, 2)] :=
  ⟨((simplify_shape_endpoints ⟨fun _ _ _ => true, fun l => l⟩
      [("M", 0, 0), ("L", 1, 1), ("L", 2, 2)] "straight" 1).2 rfl).1,
    (simplify_shape_endpoints ⟨fun _ _ _ => true, fun l => l⟩
      [("M", 0, 0), ("L", 1, 1), ("L", 2, 2)] "other" 1).1 (by decide)⟩

/-! ## C9: undo/redo are no-ops on empty or non-edit history -/

/-- C9: with an empty undo stack, or a top element that is not an `edit`
instance, `undo()` leaves the whole state (both stacks and every scene
object) unchanged; symmetrically for `redo()`. -/
theorem undo_redo_noop (s : Scene) :
    (s.undo_stack = [] ∨ (∃ n, s.undo_stack.getLast? = some (HistEntry.nonEdit n)) →
      undo s = s)
    ∧ (s.redo_stack = [] ∨ (∃ n, s.redo_stack.getLast? = some (HistEntry.nonEdit n)) →
      redo s = s) := by
  constructor
  · rintro (hemp | ⟨n, htop⟩)
    · unfold undo
      rw [hemp]
      rfl
    · unfold undo
      rw [htop]
  · rintro (hemp | ⟨n, htop⟩)
    · unfold redo
      rw [hemp]
      rfl
    · unfold redo
      rw [htop]

/-- Witness for C9: a concrete scene whose undo stack tops a non-edit
entry and whose redo stack is empty. -/
theorem undo_redo_noop_witness :
    undo { objs := [], layers := [], undo_stack := [HistEntry.nonEdit 7], redo_stack := [] }
      = { objs := [], layers := [], undo_stack := [HistEntry.nonEdit 7], redo_stack := [] }
    ∧ redo { objs := [], layers := [], undo_stack := [HistEntry.nonEdit 7], redo_stack := [] }
      = { objs := [], layers := [], undo_stack := [HistEntry.nonEdit 7], redo_stack := [] } :=
  ⟨(undo_redo_noop _).1 (Or.inr ⟨7, rfl⟩), (undo_redo_noop _).2 (Or.inl rfl)⟩

/-! ## C1: save/open round trip -/

/-- C1 counterexample: a scene whose library holds one Image entry is
not restored to the saved pair - `open_file` rewrites the image's `val`
to point into the fresh temporary directory. -/
theorem save_open_counterexample :
    open_file (save_file 0 [⟨"Image", false, "pics/cat.png", "", some none, 0⟩]) "/tmp/t0"
      ≠ some (0, [(⟨"Image", false, "pics/cat.png", "", some none, 0⟩ : LibEntry)]) := by
  decide

theorem map_openFixEntry_id {securetmp : String} :
    ∀ (lib : List LibEntry), (∀ e ∈ lib, e.type ≠ "Image") →
      lib.map (openFixEntry securetmp) = lib := by
  intro lib
  induction lib with
  | nil => intro _; rfl
  | cons e t ih =>
      intro h
      have he : openFixEntry securetmp e = e := by
        unfold openFixEntry
        rw [if_neg (h e (List.mem_cons_self e t))]
      simp only [List.map_cons, he]
      rw [ih (fun x hx => h x (List.mem_cons_of_mem e hx))]

/-- C1 (amended): `save_file` stores `pickle.dumps((root, Library))` as
the tar member named `"basefile"` (always the first member), and
`open_file` of a saved archive restores exactly the saved pair whenever
the library contains no `"Image"` entry (image entries come back with
their `val`/`path` rewritten into the temporary directory). -/
theorem save_open_roundtrip (root : Nat) (library : List LibEntry) (securetmp : String)
    (h : ∀ e ∈ library, e.type ≠ "Image") :
    (save_file root library).head? = some ("basefile", TarContent.blob root library)
    ∧ open_file (save_file root library) securetmp = some (root, library) := by
  refine ⟨rfl, ?_⟩
  have hred : open_file (save_file root library) securetmp
      = some (root, library.map (openFixEntry securetmp)) := rfl
  rw [hred, map_openFixEntry_id library h]

/-- Witness for C1 at a concrete image-free scene. -/
theorem save_open_roundtrip_witness :
    open_file (save_file 3 [⟨"Sound", false, "a.wav", "", none, 5⟩]) "/tmp/x"
      = some (3, [(⟨"Sound", false, "a.wav", "", none, 5⟩ : LibEntry)]) :=
  (save_open_roundtrip 3 _ "/tmp/x" (by decide)).2

/-! ## C2/C3: undo applies the memento, undo-then-redo is the identity -/

theorem undo_top (s : Scene) (e : edit)
    (htop : s.undo_stack.getLast? = some (HistEntry.ed e)) :
    undo s = { applyUndo e { s with undo_stack := s.undo_stack.dropLast } with
      redo_stack := (applyUndo e { s with undo_stack := s.undo_stack.dropLast }).redo_stack
        ++ [HistEntry.ed e] } := by
  unfold undo
  rw [htop]

theorem redo_top (s : Scene) (e : edit)
    (htop : s.redo_stack.getLast? = some (HistEntry.ed e)) :
    redo s = { applyRedo e { s with redo_stack := s.redo_stack.dropLast } with
      undo_stack := (applyRedo e { s with redo_stack := s.redo_stack.dropLast }).undo_stack
        ++ [HistEntry.ed e] } := by
  unfold redo
  rw [htop]

theorem dropLast_concat_of_getLast? {β : Type} {l : List β} {a : β}
    (h : l.getLast? = some a) : l.dropLast ++ [a] = l := by
  have hne : l ≠ [] := by intro hnil; rw [hnil] at h; simp at h
  have h2 : l.getLast hne = a := by
    rw [List.getLast?_eq_getLast l hne] at h
    exact Option.some_inj.1 h
  rw [← h2]
  exact List.dropLast_concat_getLast hne

/-- Common core of the undo-then-redo identity for the attribute-valued
record types: if `applyUndo` rewrites the stored object by `fU`,
`applyRedo` rewrites it by `fR`, and `fR (fU o) = o` at the current
value `o`, the composition restores the whole state. -/
theorem undo_redo_generic (s : Scene) (e : edit) (o : SceneObj)
    (htop : s.undo_stack.getLast? = some (HistEntry.ed e))
    (ho : s.objs.get? e.obj = some o)
    (fU fR : SceneObj → SceneObj)
    (hAU : applyUndo e { s with undo_stack := s.undo_stack.dropLast }
      = { s with objs := updateAt s.objs e.obj fU, undo_stack := s.undo_stack.dropLast })
    (hAR : ∀ s2 : Scene, applyRedo e s2 = { s2 with objs := updateAt s2.objs e.obj fR })
    (hfix : fR (fU o) = o) :
    redo (undo s) = s := by
  have hds : s.undo_stack.dropLast ++ [HistEntry.ed e] = s.undo_stack :=
    dropLast_concat_of_getLast? htop
  rw [undo_top s e htop, hAU]
  rw [redo_top _ e (List.getLast?_concat _)]
  rw [hAR _]
  have hobjs : updateAt (updateAt s.objs e.obj fU) e.obj fR = s.objs := by
    rw [updateAt_updateAt]
    exact updateAt_id_of _ ho hfix
  simp only [hobjs, List.dropLast_concat, hds]

/-- C2: when the top of the undo stack is an edit record of one of the
attribute types whose `to_attrs` coincide with the object's current
attribute values, `undo()` followed by `redo()` restores the object's
attributes and leaves both history stacks (and the whole scene state)
exactly as before the undo. -/
theorem undo_then_redo_id (s : Scene) (e : edit) (o : SceneObj)
    (htop : s.undo_stack.getLast? = some (HistEntry.ed e))
    (htype : e.type = "move" ∨ e.type = "scale" ∨ e.type = "fill" ∨ e.type = "text")
    (ho : s.objs.get? e.obj = some o)
    (hagree : attrsAgree e o) :
    redo (undo s) = s := by
  rcases htype with ht | ht | ht | ht
  · refine undo_redo_generic s e o htop ho
      (fun o1 => { o1 with x := e.from_attrs.x, y := e.from_attrs.y })
      (fun o1 => { o1 with x := e.to_attrs.x, y := e.to_attrs.y }) ?_ ?_ ?_
    · unfold applyUndo
      rw [ht, if_pos rfl]
    · intro s2
      unfold applyRedo
      rw [ht, if_pos rfl]
    · obtain ⟨hx, hy⟩ := hagree.1 ht
      show ({ o with x := e.to_attrs.x, y := e.to_attrs.y } : SceneObj) = o
      rw [hx, hy]
  · refine undo_redo_generic s e o htop ho
      (fun o1 => { o1 with x := e.from_attrs.x, y := e.from_attrs.y, xscale := e.from_attrs.xscale, yscale := e.from_attrs.yscale })
      (fun o1 => { o1 with x := e.to_attrs.x, y := e.to_attrs.y, xscale := e.to_attrs.xscale, yscale := e.to_attrs.yscale }) ?_ ?_ ?_
    · unfold applyUndo
      rw [ht, if_neg (by decide), if_pos rfl]
    · intro s2
      unfold applyRedo
      rw [ht, if_neg (by decide), if_pos rfl]
    · obtain ⟨hx, hy, hxs, hys⟩ := hagree.2.1 ht
      show ({ o with x := e.to_attrs.x, y := e.to_attrs.y, xscale := e.to_attrs.xscale, yscale := e.to_attrs.yscale } : SceneObj) = o
      rw [hx, hy, hxs, hys]
  · refine undo_redo_generic s e o htop ho
      (fun o1 => { o1 with filled := e.from_attrs.filled, fillcolor := e.from_attrs.fillcolor })
      (fun o1 => { o1 with filled := e.to_attrs.filled, fillcolor := e.to_attrs.fillcolor }) ?_ ?_ ?_
    · unfold applyUndo
      rw [ht, if_neg (by decide), if_neg (by decide), if_pos rfl]
    · intro s2
      unfold applyRedo
      rw [ht, if_neg (by decide), if_neg (by decide), if_pos rfl]
    · obtain ⟨hf, hc⟩ := hagree.2.2.1 ht
      show ({ o with filled := e.to_attrs.filled, fillcolor := e.to_attrs.fillcolor } : SceneObj) = o
      rw [hf, hc]
  · refine undo_redo_generic s e o htop ho
      (fun o1 => { o1 with text := e.from_attrs.text, cursorpos := e.from_attrs.cursorpos })
      (fun o1 => { o1 with text := e.to_attrs.text, cursorpos := e.to_attrs.cursorpos }) ?_ ?_ ?_
    · unfold applyUndo
      rw [ht, if_neg (by decide), if_neg (by decide), if_neg (by decide),
        if_neg (by decide), if_pos rfl]
    · intro s2
      unfold applyRedo
      rw [ht, if_neg (by decide), if_neg (by decide), if_neg (by decide),
        if_neg (by decide), if_pos rfl]
    · obtain ⟨htx, hcp⟩ := hagree.2.2.2 ht
      show ({ o with text := e.to_attrs.text, cursorpos := e.to_attrs.cursorpos } : SceneObj) = o
      rw [htx, hcp]

theorem applyUndo_undo_stack (e : edit) (s2 : Scene) :
    (applyUndo e s2).undo_stack = s2.undo_stack := by
  unfold applyUndo
  split_ifs <;> rfl

theorem applyUndo_redo_stack (e : edit) (s2 : Scene) :
    (applyUndo e s2).redo_stack = s2.redo_stack := by
  unfold applyUndo
  split_ifs <;> rfl

/-- C3: `undo()` pops the top edit record onto the redo stack and
assigns exactly the `from_attrs` fields its type names on the recorded
object (for `"add_object"`, it instead removes the recorded object from
the recorded layer's recorded frame's object list, clearing that
layer's selection if the object was selected); `redo()` of an
`"add_object"` record appends the object back to that frame's object
list. -/
theorem undo_applies_memento (s : Scene) (e : edit)
    (htop : s.undo_stack.getLast? = some (HistEntry.ed e)) :
    ((undo s).undo_stack = s.undo_stack.dropLast
      ∧ (undo s).redo_stack = s.redo_stack ++ [HistEntry.ed e])
    ∧ (∀ o, s.objs.get? e.obj = some o →
        (e.type = "move" →
          (undo s).objs
            = s.objs.set e.obj { o with x := e.from_attrs.x, y := e.from_attrs.y }
          ∧ (undo s).layers = s.layers)
        ∧ (e.type = "scale" →
          (undo s).objs
            = s.objs.set e.obj { o with x := e.from_attrs.x, y := e.from_attrs.y, xscale := e.from_attrs.xscale, yscale := e.from_attrs.yscale }
          ∧ (undo s).layers = s.layers)
        ∧ (e.type = "fill" →
          (undo s).objs
            = s.objs.set e.obj { o with filled := e.from_attrs.filled, fillcolor := e.from_attrs.fillcolor }
          ∧ (undo s).layers = s.layers)
        ∧ (e.type = "text" →
          (undo s).objs
            = s.objs.set e.obj { o with text := e.from_attrs.text, cursorpos := e.from_attrs.cursorpos }
          ∧ (undo s).layers = s.layers))
    ∧ (e.type = "add_object" → ∀ L, s.layers.get? e.from_attrs.layer = some L →
        (undo s).objs = s.objs
        ∧ (undo s).layers
          = s.layers.set e.from_attrs.layer (undoAddObjectLayer e L))
    ∧ (∀ s2 : Scene, s2.redo_stack.getLast? = some (HistEntry.ed e) →
        e.type = "add_object" → ∀ L2, s2.layers.get? e.to_attrs.layer = some L2 →
        (redo s2).layers
          = s2.layers.set e.to_attrs.layer (redoAddObjectLayer e L2)) := by
  refine ⟨⟨?_, ?_⟩, ?_, ?_, ?_⟩
  · rw [undo_top s e htop]
    exact applyUndo_undo_stack e _
  · rw [undo_top s e htop]
    show (applyUndo e _).redo_stack ++ [HistEntry.ed e] = _
    rw [applyUndo_redo_stack e _]
  · intro o ho
    refine ⟨?_, ?_, ?_, ?_⟩
    · intro ht
      constructor
      · rw [undo_top s e htop]
        show (applyUndo e { s with undo_stack := s.undo_stack.dropLast }).objs = _
        unfold applyUndo
        rw [ht, if_pos rfl]
        show updateAt s.objs e.obj _ = _
        rw [updateAt_of_get? _ ho]
      · rw [undo_top s e htop]
        show (applyUndo e { s with undo_stack := s.undo_stack.dropLast }).layers = _
        unfold applyUndo
        rw [ht, if_pos rfl]
    · intro ht
      constructor
      · rw [undo_top s e htop]
        show (applyUndo e { s with undo_stack := s.undo_stack.dropLast }).objs = _
        unfold applyUndo
        rw [ht, if_neg (by decide), if_pos rfl]
        show updateAt s.objs e.obj _ = _
        rw [updateAt_of_get? _ ho]
      · rw [undo_top s e htop]
        show (applyUndo e { s with undo_stack := s.undo_stack.dropLast }).layers = _
        unfold applyUndo
        rw [ht, if_neg (by decide), if_pos rfl]
    · intro ht
      constructor
      · rw [undo_top s e htop]
        show (applyUndo e { s with undo_stack := s.undo_stack.dropLast }).objs = _
        unfold applyUndo
        rw [ht, if_neg (by decide), if_neg (by decide), if_pos rfl]
        show updateAt s.objs e.obj _ = _
        rw [updateAt_of_get? _ ho]
      · rw [undo_top s e htop]
        show (applyUndo e { s with undo_stack := s.undo_stack.dropLast }).layers = _
        unfold applyUndo
        rw [ht, if_neg (by decide), if_neg (by decide), if_pos rfl]
    · intro ht
      constructor
      · rw [undo_top s e htop]
        show (applyUndo e { s with undo_stack := s.undo_stack.dropLast }).objs = _
        unfold applyUndo
        rw [ht, if_neg (by decide), if_neg (by decide), if_neg (by decide),
          if_neg (by decide), if_pos rfl]
        show updateAt s.objs e.obj _ = _
        rw [updateAt_of_get? _ ho]
      · rw [undo_top s e htop]
        show (applyUndo e { s with undo_stack := s.undo_stack.dropLast }).layers = _
        unfold applyUndo
        rw [ht, if_neg (by decide), if_neg (by decide), if_neg (by decide),
          if_neg (by decide), if_pos rfl]
  · intro ht L hL
    constructor
    · rw [undo_top s e htop]
      show (applyUndo e { s with undo_stack := s.undo_stack.dropLast }).objs = _
      unfold applyUndo
      rw [ht, if_neg (by decide), if_neg (by decide), if_neg (by decide), if_pos rfl]
    · rw [undo_top s e htop]
      show (applyUndo e { s with undo_stack := s.undo_stack.dropLast }).layers = _
      unfold applyUndo
      rw [ht, if_neg (by decide), if_neg (by decide), if_neg (by decide), if_pos rfl]
      show updateAt s.layers e.from_attrs.layer _ = _
      rw [updateAt_of_get? _ hL]
      rfl
  · intro s2 htop2 ht L2 hL2
    rw [redo_top s2 e htop2]
    show (applyRedo e { s2 with redo_stack := s2.redo_stack.dropLast }).layers = _
    unfold applyRedo
    rw [ht, if_neg (by decide), if_neg (by decide), if_neg (by decide), if_pos rfl]
    show updateAt s2.layers e.to_attrs.layer _ = _
    rw [updateAt_of_get? _ hL2]
    rfl

/-- Witness for C3: undoing a concrete `"add_object"` record removes
object 9 from the frame and clears the selection. -/
theorem undo_applies_memento_witness :
    (undo ⟨[], [⟨[⟨[9], some 9⟩], 0⟩],
        [HistEntry.ed ⟨"add_object", 0, ⟨0, 0, 0, 0, false, 0, "", 0, 0, 0, 9⟩,
          ⟨0, 0, 0, 0, false, 0, "", 0, 0, 0, 9⟩⟩], []⟩).layers
      = [⟨[⟨[9], some 9⟩], 0⟩].set 0
          (undoAddObjectLayer ⟨"add_object", 0, ⟨0, 0, 0, 0, false, 0, "", 0, 0, 0, 9⟩,
            ⟨0, 0, 0, 0, false, 0, "", 0, 0, 0, 9⟩⟩ ⟨[⟨[9], some 9⟩], 0⟩) :=
  ((undo_applies_memento ⟨[], [⟨[⟨[9], some 9⟩], 0⟩],
      [HistEntry.ed ⟨"add_object", 0, ⟨0, 0, 0, 0, false, 0, "", 0, 0, 0, 9⟩,
        ⟨0, 0, 0, 0, false, 0, "", 0, 0, 0, 9⟩⟩], []⟩
      ⟨"add_object", 0, ⟨0, 0, 0, 0, false, 0, "", 0, 0, 0, 9⟩,
        ⟨0, 0, 0, 0, false, 0, "", 0, 0, 0, 9⟩⟩ rfl).2.2.1 rfl
    ⟨[⟨[9], some 9⟩], 0⟩ rfl).2

/-- Witness for C2 at a concrete one-object scene with a matching
`"move"` record on top of the undo stack. -/
theorem undo_then_redo_id_witness :
    redo (undo ⟨[⟨5, 6, 1, 1, false, 0, "", 0⟩], [],
        [HistEntry.ed ⟨"move", 0, ⟨1, 2, 1, 1, false, 0, "", 0, 0, 0, 0⟩,
          ⟨5, 6, 1, 1, false, 0, "", 0, 0, 0, 0⟩⟩], []⟩)
      = ⟨[⟨5, 6, 1, 1, false, 0, "", 0⟩], [],
        [HistEntry.ed ⟨"move", 0, ⟨1, 2, 1, 1, false, 0, "", 0, 0, 0, 0⟩,
          ⟨5, 6, 1, 1, false, 0, "", 0, 0, 0, 0⟩⟩], []⟩ :=
  undo_then_redo_id _ _ ⟨5, 6, 1, 1, false, 0, "", 0⟩ rfl (Or.inl rfl) rfl (by decide)

/-! ## C4: scene-graph shape invariant -/

theorem mem_insertClamped {β : Type} :
    ∀ (l : List β) (i : Nat) (a b : β), b ∈ insertClamped l i a → b = a ∨ b ∈ l
  | l, 0, a, b, h => by
      simp only [insertClamped] at h
      rcases List.mem_cons.1 h with h1 | h1
      · exact Or.inl h1
      · exact Or.inr h1
  | [], i + 1, a, b, h => by
      simp only [insertClamped] at h
      rcases List.mem_singleton.1 h with h1
      exact Or.inl h1
  | c :: l, i + 1, a, b, h => by
      simp only [insertClamped] at h
      rcases List.mem_cons.1 h with h1 | h1
      · exact Or.inr (by simp [h1])
      · rcases mem_insertClamped l i a b h1 with h2 | h2
        · exact Or.inl h2
        · exact Or.inr (List.mem_cons_of_mem c h2)

theorem framesWrapped_set {frames : List (Option gFrame)} {i : Nat} {fr : gFrame}
    (h : framesWrapped frames) (hfr : ∀ el ∈ fr.objs, el.isWrap = true) :
    framesWrapped (frames.set i (some fr)) := by
  intro slot hs fr2 heq el hel
  rcases List.mem_or_eq_of_mem_set hs with hmem | hup
  · exact h slot hmem fr2 heq el hel
  · rw [hup] at heq
    have : fr2 = fr := (Option.some_inj.1 heq).symm
    rw [this] at hel
    exact hfr el hel

theorem framesWrapped_setFrameAt {frames : List (Option gFrame)} {i : Nat}
    (f : gFrame → gFrame) (h : framesWrapped frames)
    (hf : ∀ fr, (∀ el ∈ fr.objs, el.isWrap = true) → ∀ el ∈ (f fr).objs, el.isWrap = true) :
    framesWrapped (setFrameAt frames i f) := by
  unfold setFrameAt
  cases hg : frames.get? i with
  | none => exact h
  | some slot =>
      cases slot with
      | none => exact h
      | some fr =>
          exact framesWrapped_set h (hf fr (h (some fr) (List.get?_mem hg) fr rfl))

theorem framesWrapped_append_replicate_none {frames : List (Option gFrame)} {n : Nat}
    (h : framesWrapped frames) :
    framesWrapped (frames ++ List.replicate n (none : Option gFrame)) := by
  intro slot hs fr heq el hel
  rcases List.mem_append.1 hs with hm | hm
  · exact h slot hm fr heq el hel
  · have : slot = none := List.eq_of_mem_replicate hm
    rw [this] at heq
    simp at heq

theorem framesWrapped_insertClamped {frames : List (Option gFrame)} {i : Nat}
    {fr : gFrame} (h : framesWrapped frames) (hfr : ∀ el ∈ fr.objs, el.isWrap = true) :
    framesWrapped (insertClamped frames i (some fr)) := by
  intro slot hs fr2 heq el hel
  rcases mem_insertClamped frames i (some fr) slot hs with hup | hmem
  · rw [hup] at heq
    have : fr2 = fr := (Option.some_inj.1 heq).symm
    rw [this] at hel
    exact hfr el hel
  · exact h slot hmem fr2 heq el hel

theorem copyFrameObjs_wrapped (src dst : gFrame)
    (hdst : ∀ el ∈ dst.objs, el.isWrap = true) :
    ∀ el ∈ (copyFrameObjs src dst).objs, el.isWrap = true := by
  intro el hel
  rcases List.mem_append.1 hel with h | h
  · exact hdst el h
  · obtain ⟨x, hx, hmap⟩ := List.mem_filterMap.1 h
    cases x with
    | wrap w =>
        have : FrameElem.wrap ⟨w.obj, w.x, w.y, w.rot, 1, 1⟩ = el := Option.some_inj.1 hmap
        rw [← this]
        rfl
    | raw n => simp at hmap

theorem framesWrapped_copyInto {frames : List (Option gFrame)} (lastframe af : Nat)
    (h : framesWrapped frames) : framesWrapped (copyInto frames lastframe af) := by
  unfold copyInto
  cases hg : frames.get? lastframe with
  | none => exact h
  | some slot =>
      cases slot with
      | none => exact h
      | some src =>
          exact framesWrapped_setFrameAt _ h (fun fr hfr => copyFrameObjs_wrapped src fr hfr)

theorem framesWrapped_padFrames {L : gLayer} (h : framesWrapped L.frames) :
    framesWrapped (padFrames L).frames := by
  unfold padFrames
  split_ifs with hc
  · exact framesWrapped_append_replicate_none h
  · exact h

theorem framesWrapped_empty_objs : ∀ el ∈ ({ objs := [] } : gFrame).objs, el.isWrap = true := by
  intro el hel
  simp at hel

theorem framesWrapped_gLayer_add (L : gLayer) (o : AddedObj)
    (h : framesWrapped L.frames) : framesWrapped (L.add o).frames := by
  unfold gLayer.add
  cases hg : L.frames.get? L.currentframe with
  | none => exact h
  | some slot =>
      cases slot with
      | none => exact h
      | some fr =>
          show framesWrapped (setFrameAt L.frames L.currentframe _)
          apply framesWrapped_setFrameAt _ h
          intro fr1 hfr1 el hel
          rcases List.mem_append.1 hel with hm | hm
          · exact hfr1 el hm
          · rw [List.mem_singleton.1 hm]
            rfl

theorem framesWrapped_gLayer_add_frame (L : gLayer)
    (h : framesWrapped L.frames) : framesWrapped L.add_frame.frames := by
  have h1 : framesWrapped (padFrames L).frames := framesWrapped_padFrames h
  unfold gLayer.add_frame
  dsimp only
  cases hg : (padFrames L).frames.get? (padFrames L).activeframe with
  | none => exact h1
  | some slot =>
      cases slot with
      | none =>
          show framesWrapped (copyInto ((padFrames L).frames.set (padFrames L).activeframe
            (some { objs := [] })) _ _)
          exact framesWrapped_copyInto _ _ (framesWrapped_set h1 framesWrapped_empty_objs)
      | some fr =>
          show framesWrapped (copyInto (insertClamped (padFrames L).frames
            ((padFrames L).activeframe + 1) (some { objs := [] })) _ _)
          exact framesWrapped_copyInto _ _
            (framesWrapped_insertClamped h1 framesWrapped_empty_objs)

theorem framesWrapped_updateAt (layers : List gLayer) (i : Nat) (f : gLayer → gLayer)
    (h : ∀ L ∈ layers, framesWrapped L.frames)
    (hf : ∀ L, framesWrapped L.frames → framesWrapped (f L).frames) :
    ∀ L ∈ updateAt layers i f, framesWrapped L.frames := by
  intro L hL
  unfold updateAt at hL
  cases hg : layers.get? i with
  | none =>
      rw [hg] at hL
      exact h L hL
  | some a =>
      rw [hg] at hL
      rcases List.mem_or_eq_of_mem_set hL with hm | heq
      · exact h L hm
      · rw [heq]
        exact hf a (h a (List.get?_mem hg))

theorem framesWrapped_gLayer_init (args : List Nat) :
    framesWrapped (gLayer.init args).frames := by
  intro slot hs fr heq el hel
  rcases List.mem_singleton.1 hs with rfl
  have : fr = { objs := [] } := (Option.some_inj.1 heq).symm
  rw [this] at hel
  simp at hel

/-- C4: a `Group` is constructed with exactly one `Layer`; a `Layer` is
constructed with exactly one frame and both frame cursors at 0;
`Layer.add` (hence `Group.add`) appends exactly a `framewrapper` around
the added object to the current frame's `objs` list; and in every state
reachable by the translated constructors and mutators, each frame's
`objs` list holds only `framewrapper` values. -/
theorem scene_graph_shape_invariant :
    (∀ args, (gGroup.init args).layers = [gLayer.init args])
    ∧ (∀ args, (gLayer.init args).frames = [some { objs := [] }]
        ∧ (gLayer.init args).currentframe = 0 ∧ (gLayer.init args).activeframe = 0)
    ∧ (∀ (L : gLayer) (o : AddedObj) (f : gFrame),
        L.frames.get? L.currentframe = some (some f) →
        (L.add o).frames.get? L.currentframe
          = some (some { objs := f.objs
              ++ [FrameElem.wrap ⟨o.oid, o.x - L.x, o.y - L.y, o.rotation, 1, 1⟩] }))
    ∧ (∀ g, Reach g → allWrapped g) := by
  refine ⟨fun args => rfl, fun args => ⟨rfl, rfl, rfl⟩, ?_, ?_⟩
  · intro L o f hf
    unfold gLayer.add
    rw [hf]
    show (setFrameAt L.frames L.currentframe _).get? L.currentframe = _
    unfold setFrameAt
    rw [hf]
    exact get?_set_self _ _ _ _ hf
  · intro g hreach
    induction hreach with
    | init args =>
        intro L hL
        rcases List.mem_singleton.1 hL with rfl
        exact framesWrapped_gLayer_init args
    | add g o hg ih =>
        exact framesWrapped_updateAt g.layers g.al _ ih
          (fun L hL => framesWrapped_gLayer_add L o hL)
    | add_frame g hg ih =>
        exact framesWrapped_updateAt g.layers g.al _ ih
          (fun L hL => framesWrapped_gLayer_add_frame L hL)
    | add_layer g i hg ih =>
        intro L hL
        have hL2 : L ∈ updateAt (insertClamped g.layers (i + 1) (gLayer.init [])) (i + 1)
            (fun L1 => { L1 with level := true }) := hL
        refine framesWrapped_updateAt _ (i + 1)
          (fun L1 => { L1 with level := true }) ?_ ?_ L hL2
        · intro L1 hL1
          rcases mem_insertClamped g.layers (i + 1) (gLayer.init []) L1 hL1 with hup | hm
          · rw [hup]
            exact framesWrapped_gLayer_init []
          · exact ih L1 hm
        · intro L1 h1
          exact h1

/-- Witness for C4: the invariant at the concrete reachable state
obtained by adding one object to a fresh group. -/
theorem scene_graph_shape_invariant_witness :
    allWrapped (gGroup.add (gGroup.init []) ⟨1, 2, 3, 0⟩) :=
  scene_graph_shape_invariant.2.2.2 _ (Reach.add _ _ (Reach.init []))

/-! ## C5: hitTest is the even-odd rule -/

theorem intersect_self (a c d : Pt) : intersect a a c d = false := by
  unfold intersect
  simp

theorem intersect_of_first_eq {a b c d : Pt} (h : ccw a c d = ccw b c d) :
    intersect a b c d = false := by
  unfold intersect
  rw [h]
  simp

theorem intersect_of_second_eq {a b c d : Pt} (h : ccw a b c = ccw a b d) :
    intersect a b c d = false := by
  unfold intersect
  rw [h]
  simp

theorem intersect_of_ne {a b c d : Pt} (h1 : ccw a c d ≠ ccw b c d)
    (h2 : ccw a b c ≠ ccw a b d) : intersect a b c d = true := by
  unfold intersect
  simp only [Bool.and_eq_true, bne_iff_ne, ne_eq]
  exact ⟨h1, h2⟩

theorem segHit_eq (sd : List Seg) (x y : Int) (i : Nat) (a b : Seg)
    (ha : sd.getD ((i + sd.length - 1) % sd.length) ("", 0, 0) = a)
    (hb : sd.getD i ("", 0, 0) = b) :
    segHit sd x y i = intersect (segPt a) (segPt b) (x, y) (x, maxint) := by
  unfold segHit
  rw [ha, hb]

theorem decide_odd_succ (n : Nat) : decide (Odd (n + 1)) = !decide (Odd n) := by
  calc decide (Odd (n + 1))
      = decide (¬ Odd n) := decide_eq_decide.2 (by rw [Nat.odd_iff, Nat.odd_iff]; omega)
    _ = !decide (Odd n) := by rw [decide_not]

theorem foldl_bne_parity (f : Nat → Bool) :
    ∀ (l : List Nat) (b : Bool),
      l.foldl (fun h i => h != f i) b = (b != decide (Odd (l.countP f))) := by
  intro l
  induction l with
  | nil => intro b; simp
  | cons a t ih =>
      intro b
      rw [List.foldl_cons, ih, List.countP_cons]
      cases hfa : f a
      · simp [hfa]
      · simp only [hfa, if_true, decide_odd_succ]
        generalize decide (Odd (List.countP f t)) = d
        cases b <;> cases d <;> rfl

/-- C5 (amended): `hitTest` returns True exactly when an odd number of
the closed polygon's segments properly intersects the vertical ray from
`(x, y)` to `(x, sys.maxint)`; and every interior point of the
`box(x0, y0, w, h)` rectangle tests True provided the box height does
not exceed `sys.maxint` (beyond which the finite upward ray cannot cross
the top edge). -/
theorem hitTest_even_odd_box :
    (∀ (sd : List Seg) (x y : Int), hitTest sd x y = true ↔ Odd (crossings sd x y))
    ∧ (∀ (width height x y : Int), 0 < x → x < width → 0 < y → y < height →
        height ≤ maxint → hitTest (boxShapedata width height) x y = true) := by
  constructor
  · intro sd x y
    unfold hitTest crossings
    rw [foldl_bne_parity (fun i => segHit sd x y i) (List.range sd.length) false]
    simp
  · intro w h x y hx0 hxw hy0 hyh hhm
    have hw0 : (0 : Int) < w := lt_trans hx0 hxw
    have hm0 : (0 : Int) < maxint := lt_of_lt_of_le (lt_trans hy0 hyh) hhm
    have hym : y < maxint := lt_of_lt_of_le hyh hhm
    have hA1 : ccw (0, 0) (w, 0) (x, y) = true := by
      simp only [ccw, decide_eq_true_eq]
      nlinarith [mul_pos hy0 hw0]
    have hA2 : ccw (0, 0) (w, 0) (x, maxint) = true := by
      simp only [ccw, decide_eq_true_eq]
      nlinarith [mul_pos hm0 hw0]
    have hA3 : ccw (w, 0) (x, y) (x, maxint) = false := by
      simp only [ccw, decide_eq_false_iff_not, not_lt]
      nlinarith [mul_nonneg (sub_nonneg.2 (le_of_lt hym)) (sub_nonneg.2 (le_of_lt hxw))]
    have hA4 : ccw (w, h) (x, y) (x, maxint) = false := by
      simp only [ccw, decide_eq_false_iff_not, not_lt]
      nlinarith [mul_pos (sub_pos.2 hyh) (sub_pos.2 hxw),
        mul_nonneg (sub_nonneg.2 hhm) (sub_nonneg.2 (le_of_lt hxw))]
    have hA5 : ccw (0, h) (x, y) (x, maxint) = true := by
      simp only [ccw, decide_eq_true_eq]
      nlinarith [mul_nonneg (sub_nonneg.2 hhm) (le_of_lt hx0),
        mul_pos (sub_pos.2 hyh) hx0]
    have hA6 : ccw (w, h) (0, h) (x, y) = true := by
      simp only [ccw, decide_eq_true_eq]
      nlinarith [mul_pos (sub_pos.2 hyh) hw0]
    have hA7 : ccw (w, h) (0, h) (x, maxint) = false := by
      simp only [ccw, decide_eq_false_iff_not, not_lt]
      nlinarith [mul_nonneg (sub_nonneg.2 hhm) (le_of_lt hw0)]
    have hA8 : ccw (0, 0) (x, y) (x, maxint) = true := by
      simp only [ccw, decide_eq_true_eq]
      nlinarith [mul_pos (sub_pos.2 hym) hx0]
    have s0 : segHit (boxShapedata w h) x y 0 = false := by
      rw [segHit_eq (boxShapedata w h) x y 0 ("L", 0, 0) ("M", 0, 0)
        (by simp [boxShapedata]) (by simp [boxShapedata])]
      exact intersect_self _ _ _
    have s1 : segHit (boxShapedata w h) x y 1 = false := by
      rw [segHit_eq (boxShapedata w h) x y 1 ("M", 0, 0) ("L", w, 0)
        (by simp [boxShapedata]) (by simp [boxShapedata])]
      exact intersect_of_second_eq (hA1.trans hA2.symm)
    have s2 : segHit (boxShapedata w h) x y 2 = false := by
      rw [segHit_eq (boxShapedata w h) x y 2 ("L", w, 0) ("L", w, h)
        (by simp [boxShapedata]) (by simp [boxShapedata])]
      exact intersect_of_first_eq (hA3.trans hA4.symm)
    have s3 : segHit (boxShapedata w h) x y 3 = true := by
      rw [segHit_eq (boxShapedata w h) x y 3 ("L", w, h) ("L", 0, h)
        (by simp [boxShapedata]) (by simp [boxShapedata])]
      refine intersect_of_ne ?_ ?_
      · show ccw (w, h) (x, y) (x, maxint) ≠ ccw (0, h) (x, y) (x, maxint)
        rw [hA4, hA5]
        simp
      · show ccw (w, h) (0, h) (x, y) ≠ ccw (w, h) (0, h) (x, maxint)
        rw [hA6, hA7]
        simp
    have s4 : segHit (boxShapedata w h) x y 4 = false := by
      rw [segHit_eq (boxShapedata w h) x y 4 ("L", 0, h) ("L", 0, 0)
        (by simp [boxShapedata]) (by simp [boxShapedata])]
      exact intersect_of_first_eq (hA5.trans hA8.symm)
    unfold hitTest
    rw [show (boxShapedata w h).length = 5 from rfl,
      show List.range 5 = [0, 1, 2, 3, 4] from rfl]
    simp only [List.foldl_cons, List.foldl_nil]
    rw [s0, s1, s2, s3, s4]
    rfl

/-- C5 counterexample to the claim as stated: with `w = 2` and
`h = sys.maxint + 1`, the interior point `(1, sys.maxint)` satisfies
`0 < x < w` and `0 < y < h` but `hitTest` returns False - the ray from
`(x, y)` to `(x, sys.maxint)` is degenerate because `y = sys.maxint`. -/
theorem hitTest_box_counterexample :
    (0 : Int) < 1 ∧ (1 : Int) < 2 ∧ (0 : Int) < maxint ∧ maxint < maxint + 1
    ∧ hitTest (boxShapedata 2 (maxint + 1)) 1 maxint = false := by
  refine ⟨by decide, by decide, by decide, by decide, by decide⟩

/-- Witness for C5 at a concrete 10 by 10 box and its midpoint. -/
theorem hitTest_even_odd_box_witness :
    hitTest (boxShapedata 10 10) 5 5 = true :=
  hitTest_even_odd_box.2 10 10 5 5 (by decide) (by decide) (by decide) (by decide)
    (by decide)

end LB
